import Mathlib

/-!
# Shallow embedding of `download_sdss_images.py`

This file embeds the SDSS image bulk-downloader (`src/download_sdss_images.py`)
into Lean 4 and proves the specification claims about it.

Modelling conventions:
* Network behaviour of `requests.get` is abstracted by an `oracle` mapping the
  attempt number (the value of the Python `count` variable when the attempt is
  issued) to the attempt's outcome: either a raised exception (`exc`) or a
  response with a status code and a streamed body (a list of byte chunks).
* Python floats (`timeout`, reported percentages) are modelled as rationals.
* Files are modelled by their line/byte content; appends to the two CSV logs
  are modelled as list appends.
* `get_SDSS_url` sits behind a `try/except` in `__main__`; locator
  construction is therefore modelled as a function `makeUrl : Row → Option String`,
  `none` standing for a raised exception.
-/

namespace SDSS

/-- `chunks` (lines 26-29): `for i in range(0, len(lst), n): yield lst[i:i + n]`.
For `n = 0` Python's `range` raises `ValueError`; the program only calls it
with `n = 10`. -/
def chunks {α : Type} (n : Nat) (l : List α) : List (List α) :=
  if h : n = 0 then []
  else
    match l with
    | [] => []
    | x :: xs => (x :: xs).take n :: chunks n ((x :: xs).drop n)
termination_by l.length
decreasing_by
  have h0 : 0 < n := Nat.pos_of_ne_zero h
  simp only [List.length_drop, List.length_cons]
  omega

/-- Outcome of one `requests.get` call: an exception, or a response carrying a
status code and a body streamed as chunks of bytes. -/
inductive AttemptResult : Type
  | exc : AttemptResult
  | status (code : Nat) (body : List (List Nat)) : AttemptResult
deriving DecidableEq

/-- One issued GET attempt: the value of `count` when it was issued, the
timeout it used, and its outcome. -/
structure Attempt where
  count : Nat
  timeout : ℚ
  outcome : AttemptResult
deriving DecidableEq

/-- Result of running `fetch_url` on one entry: the trace of issued attempts,
the returned value (`some path` or `None`), and the bytes written to `path`
(if an HTTP 200 was reached). -/
structure FetchTrace where
  attempts : List Attempt
  result : Option String
  written : Option (List Nat)
deriving DecidableEq

/-- The `while not downloaded and count < tries` loop of `fetch_url`
(lines 41-61). `fuel = tries - count` is the number of remaining allowed
attempts. On an exception: `count += 1; timeout *= 2` and the loop continues.
On status 200: the body chunks are written to `path` and `path` is returned.
On any other status: `count += 1` and the loop continues with the timeout
unchanged. When the attempts are used up the function returns `None`. -/
def fetchGo (oracle : Nat → AttemptResult) (path : String) :
    Nat → ℚ → Nat → FetchTrace
  | _, _, 0 => ⟨[], none, none⟩
  | count, timeout, fuel + 1 =>
    match oracle count with
    | AttemptResult.exc =>
      let rest := fetchGo oracle path (count + 1) (timeout * 2) fuel
      ⟨⟨count, timeout, AttemptResult.exc⟩ :: rest.attempts, rest.result, rest.written⟩
    | AttemptResult.status code body =>
      if code = 200 then
        ⟨[⟨count, timeout, AttemptResult.status code body⟩], some path, some body.flatten⟩
      else
        let rest := fetchGo oracle path (count + 1) timeout fuel
        ⟨⟨count, timeout, AttemptResult.status code body⟩ :: rest.attempts,
          rest.result, rest.written⟩

/-- `fetch_url` (lines 31-61): `tries = 5`, `count = 0`, starting timeout
`gtimeout`. The pre-attempt jitter sleep (lines 38-39) has no effect on the
returned data and is modelled separately by `randSleep`. The `uri` is consumed
by `requests.get`, whose behaviour the `oracle` abstracts. -/
def fetch_url (oracle : Nat → AttemptResult) (uri path : String) (gtimeout : ℚ) :
    FetchTrace :=
  let _ := uri
  fetchGo oracle path 0 gtimeout 5

/-- The jitter slept before the first attempt (lines 38-39):
`random.randint(1, 101) / 20.` where `r` is the value drawn by
`random.randint(1, 101)` (inclusive at both ends). -/
def randSleep (r : Nat) : ℚ :=
  (r : ℚ) / 20

/-- Does an attempt outcome carry HTTP status 200? -/
def ok200 : AttemptResult → Bool
  | AttemptResult.status 200 _ => true
  | _ => false

/-- `os.path.join(downloadDirectory, filename)` for POSIX-style arguments. -/
def ospath_join (d f : String) : String :=
  d ++ "/" ++ f

/-- `thisArray` built by `multiobject_download` (lines 68-74): pairs
`(url, os.path.join(downloadDirectory, filenames[i]))` for `i, url` in
`enumerate(urlList)`. Equals the truncating zip whenever
`filenames` is at least as long as `urlList` (otherwise Python raises
`IndexError`; every call in `__main__` satisfies the length condition). -/
def thisArrayOf (urlList : List String) (downloadDirectory : String)
    (filenames : List String) : List (String × String) :=
  urlList.zip (filenames.map (ospath_join downloadDirectory))

/-- `multiobject_download` (lines 63-86), with `fetch` abstracting
`fetch_url` (which returns `some path` on success and `None` on failure).
`executor.map` yields results in submission order, so `results` is the map of
`fetch` over `thisArray`; the returned `localPaths` keep exactly the entries
of `thisArray` whose destination path occurs among the results. -/
def multiobject_download (fetch : String × String → Option String)
    (urlList : List String) (downloadDirectory : String)
    (filenames : List String) : List String :=
  ((thisArrayOf urlList downloadDirectory filenames).filter
    (fun o =>
      decide (some o.2 ∈ (thisArrayOf urlList downloadDirectory filenames).map fetch))).map
    Prod.snd

/-- The running percentages printed by `multiobject_download` (lines 79-83):
after appending the `k`-th result (`k` counted from 0, failures included),
it prints `(k+1) / totalCount * 100` with `totalCount = len(urlList)`. -/
def multiobject_percents (fetch : String × String → Option String)
    (urlList : List String) (downloadDirectory : String)
    (filenames : List String) : List ℚ :=
  (List.range ((thisArrayOf urlList downloadDirectory filenames).map fetch).length).map
    (fun k : Nat => ((k : ℚ) + 1) / (urlList.length : ℚ) * 100)

/-- Appending the successful paths of a batch to `downloaded.csv`
(lines 165-168): one line per path, append mode. -/
def ledgerAppend (ledger entries : List String) : List String :=
  ledger ++ entries

/-- `os.path.basename` for POSIX-style paths: the part after the last `/`. -/
def basename (s : String) : String :=
  ((s.toList.reverse.takeWhile (fun c => c != '/')).reverse).asString

/-- Python `str.rstrip(set)`: remove from the right all characters belonging
to `set`. -/
def rstripSet (s : String) (set : List Char) : String :=
  ((s.toList.reverse.dropWhile (fun c => set.contains c)).reverse).asString

/-- `retrieved_ids` recovered from the ledger paths (line 121):
`os.path.basename(x).rstrip(".jpeg")` for each path `x`. -/
def retrievedIdsOf (paths : List String) : List String :=
  paths.map (fun x => rstripSet (basename x) ['.', 'j', 'p', 'e', 'g'])

/-- One input record: the textual RA and DEC fields and `str(oid)`. -/
structure Row where
  ra : String
  dec : String
  oid : String
deriving DecidableEq

/-- The destination filename `f"{counter}.jpeg"` (line 141). -/
def filenameOf (counter : Nat) : String :=
  Nat.repr counter ++ ".jpeg"

/-- The line written to `urlnotfound.csv` on a locator-construction failure
(line 149): `f"{RA},{DEC} not found"`. -/
def notfoundLine (row : Row) : String :=
  row.ra ++ "," ++ row.dec ++ " not found"

/-- Per-batch loop state of `__main__` (lines 128-151): the global filename
counter, this batch's `objids` and `allUrls`, and the lines appended to
`urlnotfound.csv`. -/
structure BatchAcc where
  counter : Nat
  objids : List String
  allUrls : List String
  notfound : List String
deriving DecidableEq

/-- Processing one record of a batch (lines 136-151): skip it when
`str(oid)` is in `retrieved_ids`; otherwise assign `f"{counter}.jpeg"`,
increment the counter, then either append the constructed URL to `allUrls`
or, when locator construction raises, append one line to `urlnotfound.csv`. -/
def processRow (retrieved_ids : List String) (makeUrl : Row → Option String)
    (s : BatchAcc) (row : Row) : BatchAcc :=
  if row.oid ∈ retrieved_ids then s
  else
    let s1 : BatchAcc :=
      { s with objids := s.objids ++ [filenameOf s.counter], counter := s.counter + 1 }
    match makeUrl row with
    | none => { s1 with notfound := s1.notfound ++ [notfoundLine row] }
    | some url => { s1 with allUrls := s1.allUrls ++ [url] }

/-- Processing one whole batch: `objids` and `allUrls` start empty
(lines 133-134), the counter and the failure log carry over. -/
def processBatch (retrieved_ids : List String) (makeUrl : Row → Option String)
    (counter : Nat) (notfound : List String) (batch : List Row) : BatchAcc :=
  batch.foldl (processRow retrieved_ids makeUrl) ⟨counter, [], [], notfound⟩

/-- Whole-run state: the filename counter, the failure-log lines, the ledger
lines appended this run, every `(url, localFilepath)` pair handed to
`fetch_url`, and every destination filename assigned. -/
structure RunState where
  counter : Nat
  notfound : List String
  ledger : List String
  fetched : List (String × String)
  assigned : List String
deriving DecidableEq

/-- One iteration of the batch loop (lines 131-168): process the batch's
records, hand the resulting `(url, path)` pairs to the downloader, and append
the returned successful paths to `downloaded.csv`. -/
def runBatch (retrieved_ids : List String) (makeUrl : Row → Option String)
    (fetch : String × String → Option String) (downdir : String)
    (s : RunState) (batch : List Row) : RunState :=
  let acc := processBatch retrieved_ids makeUrl s.counter s.notfound batch
  let localUrls := multiobject_download fetch acc.allUrls downdir acc.objids
  { counter := acc.counter,
    notfound := acc.notfound,
    ledger := ledgerAppend s.ledger localUrls,
    fetched := s.fetched ++ thisArrayOf acc.allUrls downdir acc.objids,
    assigned := s.assigned ++ acc.objids }

/-- The whole run (lines 126-168): split the records into batches of 10 and
fold the batch loop over them, the counter starting at 1 (line 129). -/
def runAll (retrieved_ids : List String) (makeUrl : Row → Option String)
    (fetch : String × String → Option String) (downdir : String)
    (rows : List Row) : RunState :=
  (chunks 10 rows).foldl (runBatch retrieved_ids makeUrl fetch downdir)
    ⟨1, [], [], [], []⟩

/-- Is a record kept (not skipped) by the resume check? -/
def keptRow (retrieved_ids : List String) (row : Row) : Bool :=
  decide (row.oid ∉ retrieved_ids)

/-- A fetch function that always fails (models `fetch_url` returning `None`
for every entry). -/
def fetchFail : String × String → Option String :=
  fun _ => none

/-- A fetch function that fails exactly on the URL `"u1"` and succeeds
elsewhere (returning, like `fetch_url`, the entry's destination path). -/
def fetchFailFirst : String × String → Option String :=
  fun e => if e.1 = "u1" then none else some e.2

/-- An oracle on which every GET raises. -/
def oracleAllExc : Nat → AttemptResult :=
  fun _ => AttemptResult.exc

/-- An oracle on which every GET yields HTTP 404. -/
def oracle404 : Nat → AttemptResult :=
  fun _ => AttemptResult.status 404 []

/-- An oracle on which every GET yields HTTP 200 with a two-chunk body. -/
def oracle200 : Nat → AttemptResult :=
  fun _ => AttemptResult.status 200 [[7, 8], [9]]

/-- Decimal digits of `n`, most significant first, as produced by Python's
and Lean's decimal printing. Reference implementation used to reason about
`Nat.repr`. -/
def toDigitsList (n : Nat) : List Char :=
  if n < 10 then [Nat.digitChar n]
  else toDigitsList (n / 10) ++ [Nat.digitChar (n % 10)]
termination_by n
decreasing_by
  exact Nat.div_lt_self (by omega) (by omega)

/-- Numeric value of a decimal digit character. -/
def digitVal (c : Char) : Nat :=
  c.toNat - 48

/-- Decode a most-significant-first list of decimal digit characters. -/
def decodeDigits (cs : List Char) : Nat :=
  cs.foldl (fun a c => 10 * a + digitVal c) 0

/-! ## Lemmas about `chunks` -/

theorem chunks_nil {α : Type} (n : Nat) : chunks n ([] : List α) = [] := by
  rw [chunks]
  split <;> rfl

theorem chunks_cons {α : Type} {n : Nat} (hn : n ≠ 0) (x : α) (xs : List α) :
    chunks n (x :: xs) = (x :: xs).take n :: chunks n ((x :: xs).drop n) := by
  rw [chunks]
  simp [hn]

theorem chunks_flatten {α : Type} (n : Nat) (hn : 0 < n) (l : List α) :
    (chunks n l).flatten = l := by
  generalize hk : l.length = k
  induction k using Nat.strong_induction_on generalizing l with
  | _ k ih =>
    rcases l with _ | ⟨x, xs⟩
    · simp [chunks_nil]
    · rw [chunks_cons (Nat.pos_iff_ne_zero.mp hn), List.flatten_cons,
        ih ((x :: xs).drop n).length ?_ _ rfl, List.take_append_drop]
      subst hk
      simp only [List.length_drop, List.length_cons]
      omega

theorem chunks_ne_nil {α : Type} {n : Nat} (hn : n ≠ 0) (x : α) (xs : List α) :
    chunks n (x :: xs) ≠ [] := by
  rw [chunks_cons hn]
  exact List.cons_ne_nil _ _

theorem chunks_mem_length {α : Type} (n : Nat) (hn : 0 < n) (l : List α) :
    ∀ c ∈ chunks n l, c.length ≤ n ∧ c ≠ [] := by
  generalize hk : l.length = k
  induction k using Nat.strong_induction_on generalizing l with
  | _ k ih =>
    rcases l with _ | ⟨x, xs⟩
    · simp [chunks_nil]
    · rw [chunks_cons (Nat.pos_iff_ne_zero.mp hn)]
      intro c hc
      rcases List.mem_cons.mp hc with h | h
      · subst h
        refine ⟨List.length_take_le _ _, ?_⟩
        simp only [ne_eq, List.take_eq_nil_iff]
        push_neg
        exact ⟨Nat.pos_iff_ne_zero.mp hn, List.cons_ne_nil _ _⟩
      · exact ih ((x :: xs).drop n).length
          (by subst hk; simp only [List.length_drop, List.length_cons]; omega) _ rfl c h

theorem chunks_dropLast_length {α : Type} (n : Nat) (hn : 0 < n) (l : List α) :
    ∀ c ∈ (chunks n l).dropLast, c.length = n := by
  generalize hk : l.length = k
  induction k using Nat.strong_induction_on generalizing l with
  | _ k ih =>
    rcases l with _ | ⟨x, xs⟩
    · simp [chunks_nil]
    · rw [chunks_cons (Nat.pos_iff_ne_zero.mp hn)]
      rcases hd : (x :: xs).drop n with _ | ⟨y, ys⟩
      · simp [chunks_nil]
      · have hne : chunks n (y :: ys) ≠ [] :=
          chunks_ne_nil (Nat.pos_iff_ne_zero.mp hn) y ys
        rw [List.dropLast_cons_of_ne_nil hne]
        intro c hc
        rcases List.mem_cons.mp hc with h | h
        · subst h
          have hlen : n < (x :: xs).length := by
            by_contra hle
            push_neg at hle
            rw [List.drop_eq_nil_of_le hle] at hd
            exact List.cons_ne_nil y ys hd.symm
          simp only [List.length_take, List.length_cons]
          simp only [List.length_cons] at hlen
          omega
        · have hylen : (y :: ys).length < k := by
            have h2 := congrArg List.length hd
            simp only [List.length_drop, List.length_cons] at h2
            simp only [List.length_cons] at hk
            simp only [List.length_cons]
            omega
          exact ih (y :: ys).length hylen _ rfl c h

/-- C8: with batch size 10, `chunks` splits any request list into consecutive
batches whose concatenation is the original list; every batch except possibly
the last has exactly 10 elements and no batch exceeds 10 or is empty, so
batch boundaries change neither which items are processed nor their order. -/
theorem C8_batching {α : Type} (l : List α) :
    (chunks 10 l).flatten = l ∧
    (∀ c ∈ (chunks 10 l).dropLast, c.length = 10) ∧
    (∀ c ∈ chunks 10 l, c.length ≤ 10 ∧ c ≠ []) :=
  ⟨chunks_flatten 10 (by omega) l, chunks_dropLast_length 10 (by omega) l,
    chunks_mem_length 10 (by omega) l⟩

/-- Witness for C8: 12 items split into two batches of 10 and 2 whose
concatenation is the input. -/
theorem C8_batching_witness :
    (chunks 10 (List.range 12)).flatten = List.range 12 ∧
    (chunks 10 (List.range 12)).map List.length = [10, 2] := by
  refine ⟨(C8_batching (List.range 12)).1, ?_⟩
  rw [show List.range 12 = [0, 1, 2, 3, 4, 5, 6, 7, 8, 9, 10, 11] from by decide,
    chunks_cons (by omega),
    show List.drop 10 ([0, 1, 2, 3, 4, 5, 6, 7, 8, 9, 10, 11] : List Nat) = [10, 11]
      from by decide,
    chunks_cons (by omega),
    show List.drop 10 ([10, 11] : List Nat) = [] from by decide,
    chunks_nil]
  decide

/-! ## Lemmas about `fetchGo` and `fetch_url` -/

theorem fetchGo_attempts_length (oracle : Nat → AttemptResult) (path : String) :
    ∀ (fuel count : Nat) (t : ℚ),
      (fetchGo oracle path count t fuel).attempts.length ≤ fuel := by
  intro fuel
  induction fuel with
  | zero => intro count t; simp [fetchGo]
  | succ f ih =>
    intro count t
    cases h : oracle count with
    | exc =>
      simp only [fetchGo, h, List.length_cons]
      exact Nat.succ_le_succ (ih _ _)
    | status code body =>
      by_cases h200 : code = 200
      · simp [fetchGo, h, h200]
      · simp only [fetchGo, h, if_neg h200, List.length_cons]
        exact Nat.succ_le_succ (ih _ _)

theorem fetchGo_attempts_head (oracle : Nat → AttemptResult) (path : String)
    (count : Nat) (t : ℚ) (f : Nat) :
    (fetchGo oracle path count t (f + 1)).attempts.get? 0 =
      some ⟨count, t, oracle count⟩ := by
  cases h : oracle count with
  | exc => simp [fetchGo, h]
  | status code body => by_cases h200 : code = 200 <;> simp [fetchGo, h, h200]

theorem fetchGo_attempts_count (oracle : Nat → AttemptResult) (path : String) :
    ∀ (fuel count k : Nat) (t : ℚ) (a : Attempt),
      (fetchGo oracle path count t fuel).attempts.get? k = some a →
      a.count = count + k := by
  intro fuel
  induction fuel with
  | zero => intro count k t a ha; simp [fetchGo] at ha
  | succ f ih =>
    intro count k t a ha
    cases h : oracle count with
    | exc =>
      simp only [fetchGo, h] at ha
      cases k with
      | zero =>
        simp only [List.get?_cons_zero, Option.some.injEq] at ha
        rw [← ha]
        rfl
      | succ k =>
        simp only [List.get?_cons_succ] at ha
        have := ih (count + 1) k _ _ ha
        omega
    | status code body =>
      by_cases h200 : code = 200
      · simp only [fetchGo, h, if_pos h200] at ha
        cases k with
        | zero =>
          simp only [List.get?_cons_zero, Option.some.injEq] at ha
          rw [← ha]
          rfl
        | succ k => simp at ha
      · simp only [fetchGo, h, if_neg h200] at ha
        cases k with
        | zero =>
          simp only [List.get?_cons_zero, Option.some.injEq] at ha
          rw [← ha]
          rfl
        | succ k =>
          simp only [List.get?_cons_succ] at ha
          have := ih (count + 1) k _ _ ha
          omega

theorem fetchGo_exc_timeout (oracle : Nat → AttemptResult) (path : String) :
    ∀ (fuel count : Nat) (t : ℚ) (k : Nat) (a b : Attempt),
      (fetchGo oracle path count t fuel).attempts.get? k = some a →
      (fetchGo oracle path count t fuel).attempts.get? (k + 1) = some b →
      a.outcome = AttemptResult.exc → b.timeout = 2 * a.timeout := by
  intro fuel
  induction fuel with
  | zero => intro count t k a b ha _ _; simp [fetchGo] at ha
  | succ f ih =>
    intro count t k a b ha hb hexc
    cases h : oracle count with
    | exc =>
      simp only [fetchGo, h] at ha hb
      cases k with
      | zero =>
        simp only [List.get?_cons_zero, Option.some.injEq] at ha
        simp only [List.get?_cons_succ] at hb
        cases f with
        | zero => simp [fetchGo] at hb
        | succ f2 =>
          rw [fetchGo_attempts_head] at hb
          simp only [Option.some.injEq] at hb
          rw [← hb, ← ha]
          simp [mul_comm]
      | succ k =>
        simp only [List.get?_cons_succ] at ha hb
        exact ih (count + 1) (t * 2) k a b ha hb hexc
    | status code body =>
      by_cases h200 : code = 200
      · simp only [fetchGo, h, if_pos h200] at hb
        cases k with
        | zero => simp at hb
        | succ k => simp at hb
      · simp only [fetchGo, h, if_neg h200] at ha hb
        cases k with
        | zero =>
          simp only [List.get?_cons_zero, Option.some.injEq] at ha
          rw [← ha] at hexc
          simp at hexc
        | succ k =>
          simp only [List.get?_cons_succ] at ha hb
          exact ih (count + 1) t k a b ha hb hexc

theorem fetchGo_status_timeout (oracle : Nat → AttemptResult) (path : String) :
    ∀ (fuel count : Nat) (t : ℚ) (k : Nat) (a b : Attempt) (code : Nat)
      (body : List (List Nat)),
      (fetchGo oracle path count t fuel).attempts.get? k = some a →
      (fetchGo oracle path count t fuel).attempts.get? (k + 1) = some b →
      a.outcome = AttemptResult.status code body → code ≠ 200 →
      b.timeout = a.timeout := by
  intro fuel
  induction fuel with
  | zero => intro count t k a b code body ha _ _ _; simp [fetchGo] at ha
  | succ f ih =>
    intro count t k a b code body ha hb houtcome hcode
    cases h : oracle count with
    | exc =>
      simp only [fetchGo, h] at ha hb
      cases k with
      | zero =>
        simp only [List.get?_cons_zero, Option.some.injEq] at ha
        rw [← ha] at houtcome
        simp at houtcome
      | succ k =>
        simp only [List.get?_cons_succ] at ha hb
        exact ih (count + 1) (t * 2) k a b code body ha hb houtcome hcode
    | status code0 body0 =>
      by_cases h200 : code0 = 200
      · simp only [fetchGo, h, if_pos h200] at hb
        cases k with
        | zero => simp at hb
        | succ k => simp at hb
      · simp only [fetchGo, h, if_neg h200] at ha hb
        cases k with
        | zero =>
          simp only [List.get?_cons_zero, Option.some.injEq] at ha
          simp only [List.get?_cons_succ] at hb
          cases f with
          | zero => simp [fetchGo] at hb
          | succ f2 =>
            rw [fetchGo_attempts_head] at hb
            simp only [Option.some.injEq] at hb
            rw [← hb, ← ha]
        | succ k =>
          simp only [List.get?_cons_succ] at ha hb
          exact ih (count + 1) t k a b code body ha hb houtcome hcode

theorem fetchGo_200_result (oracle : Nat → AttemptResult) (path : String) :
    ∀ (fuel count : Nat) (t : ℚ) (k : Nat) (a : Attempt) (body : List (List Nat)),
      (fetchGo oracle path count t fuel).attempts.get? k = some a →
      a.outcome = AttemptResult.status 200 body →
      (fetchGo oracle path count t fuel).result = some path ∧
      (fetchGo oracle path count t fuel).written = some body.flatten ∧
      (fetchGo oracle path count t fuel).attempts.length = k + 1 := by
  intro fuel
  induction fuel with
  | zero => intro count t k a body ha _; simp [fetchGo] at ha
  | succ f ih =>
    intro count t k a body ha houtcome
    cases h : oracle count with
    | exc =>
      simp only [fetchGo, h] at ha ⊢
      cases k with
      | zero =>
        simp only [List.get?_cons_zero, Option.some.injEq] at ha
        rw [← ha] at houtcome
        simp at houtcome
      | succ k =>
        simp only [List.get?_cons_succ] at ha
        have := ih (count + 1) (t * 2) k a body ha houtcome
        simpa [List.length_cons] using this
    | status code0 body0 =>
      by_cases h200 : code0 = 200
      · simp only [fetchGo, h, if_pos h200] at ha
        cases k with
        | zero =>
          simp only [List.get?_cons_zero, Option.some.injEq] at ha
          rw [← ha] at houtcome
          have h2 : AttemptResult.status code0 body0 = AttemptResult.status 200 body :=
            houtcome
          injection h2 with _ hbody
          subst hbody
          simp [fetchGo, h, if_pos h200]
        | succ k =>
          simp only [List.get?_cons_succ, List.get?_nil] at ha
          exact Option.noConfusion ha
      · simp only [fetchGo, h, if_neg h200] at ha ⊢
        cases k with
        | zero =>
          simp only [List.get?_cons_zero, Option.some.injEq] at ha
          rw [← ha] at houtcome
          simp only [AttemptResult.status.injEq] at houtcome
          exact absurd houtcome.1 h200
        | succ k =>
          simp only [List.get?_cons_succ] at ha
          have := ih (count + 1) t k a body ha houtcome
          simpa [List.length_cons] using this

theorem fetchGo_exhaust (oracle : Nat → AttemptResult) (path : String) :
    ∀ (fuel count : Nat) (t : ℚ),
      (∀ k, k < fuel → ok200 (oracle (count + k)) = false) →
      (fetchGo oracle path count t fuel).result = none ∧
      (fetchGo oracle path count t fuel).written = none ∧
      (fetchGo oracle path count t fuel).attempts.length = fuel := by
  intro fuel
  induction fuel with
  | zero => intro count t _; exact ⟨rfl, rfl, rfl⟩
  | succ f ih =>
    intro count t hfail
    cases h : oracle count with
    | exc =>
      have := ih (count + 1) (t * 2) (fun k hk => by
        have := hfail (k + 1) (by omega)
        rwa [show count + (k + 1) = count + 1 + k by omega] at this)
      simp only [fetchGo, h, List.length_cons]
      exact ⟨this.1, this.2.1, by rw [this.2.2]⟩
    | status code0 body0 =>
      by_cases h200 : code0 = 200
      · subst h200
        have := hfail 0 (by omega)
        rw [Nat.add_zero, h] at this
        simp [ok200] at this
      · have := ih (count + 1) t (fun k hk => by
          have := hfail (k + 1) (by omega)
          rwa [show count + (k + 1) = count + 1 + k by omega] at this)
        simp only [fetchGo, h, if_neg h200, List.length_cons]
        exact ⟨this.1, this.2.1, by rw [this.2.2]⟩

/-- C2: a transport-level exception on an attempt increments the attempt
count and makes the following attempt use exactly (hence at least) double the
previous timeout, and at most 5 attempts are issued in total. -/
theorem C2_retry_backoff (oracle : Nat → AttemptResult) (uri path : String) (t0 : ℚ) :
    (fetch_url oracle uri path t0).attempts.length ≤ 5 ∧
    (∀ k a, (fetch_url oracle uri path t0).attempts.get? k = some a → a.count = k) ∧
    (∀ k a b,
      (fetch_url oracle uri path t0).attempts.get? k = some a →
      (fetch_url oracle uri path t0).attempts.get? (k + 1) = some b →
      a.outcome = AttemptResult.exc → b.timeout = 2 * a.timeout) := by
  refine ⟨fetchGo_attempts_length oracle path 5 0 t0, ?_, ?_⟩
  · intro k a ha
    simpa using fetchGo_attempts_count oracle path 5 0 k t0 a ha
  · intro k a b ha hb hexc
    exact fetchGo_exc_timeout oracle path 5 0 t0 k a b ha hb hexc

/-- Witness for C2 at the always-raising oracle: the second attempt's timeout
is double the first's. -/
theorem C2_retry_backoff_witness :
    (fetch_url oracleAllExc "u" "p" 1).attempts.length ≤ 5 ∧
    (⟨1, 1 * 2, AttemptResult.exc⟩ : Attempt).timeout =
      2 * (⟨0, 1, AttemptResult.exc⟩ : Attempt).timeout :=
  ⟨(C2_retry_backoff oracleAllExc "u" "p" 1).1,
    (C2_retry_backoff oracleAllExc "u" "p" 1).2.2 0
      ⟨0, 1, AttemptResult.exc⟩ ⟨1, 1 * 2, AttemptResult.exc⟩
      rfl rfl rfl⟩

/-- C3: an attempt with a non-2xx status increments the attempt count and the
next attempt keeps the same timeout; an attempt with status 200 makes the
fetch write the body to the destination path and return that path. -/
theorem C3_http_status (oracle : Nat → AttemptResult) (uri path : String) (t0 : ℚ) :
    (∀ k a b code body,
      (fetch_url oracle uri path t0).attempts.get? k = some a →
      a.outcome = AttemptResult.status code body →
      code < 200 ∨ 300 ≤ code →
      (fetch_url oracle uri path t0).attempts.get? (k + 1) = some b →
      b.timeout = a.timeout ∧ b.count = a.count + 1) ∧
    (∀ k a body,
      (fetch_url oracle uri path t0).attempts.get? k = some a →
      a.outcome = AttemptResult.status 200 body →
      (fetch_url oracle uri path t0).result = some path ∧
      (fetch_url oracle uri path t0).written = some body.flatten) := by
  constructor
  · intro k a b code body ha houtcome hrange hb
    have hcode : code ≠ 200 := by omega
    refine ⟨fetchGo_status_timeout oracle path 5 0 t0 k a b code body ha hb houtcome hcode, ?_⟩
    have hca := fetchGo_attempts_count oracle path 5 0 k t0 a ha
    have hcb := fetchGo_attempts_count oracle path 5 0 (k + 1) t0 b hb
    omega
  · intro k a body ha houtcome
    have := fetchGo_200_result oracle path 5 0 t0 k a body ha houtcome
    exact ⟨this.1, this.2.1⟩

/-- Witness for C3: a 404 keeps the timeout and increments the count; a 200
returns the destination path with the streamed body written to it. -/
theorem C3_http_status_witness :
    ((⟨1, 180, AttemptResult.status 404 []⟩ : Attempt).timeout =
        (⟨0, 180, AttemptResult.status 404 []⟩ : Attempt).timeout ∧
      (⟨1, 180, AttemptResult.status 404 []⟩ : Attempt).count =
        (⟨0, 180, AttemptResult.status 404 []⟩ : Attempt).count + 1) ∧
    (fetch_url oracle200 "u" "p" 180).result = some "p" ∧
    (fetch_url oracle200 "u" "p" 180).written = some [7, 8, 9] := by
  refine ⟨(C3_http_status oracle404 "u" "p" 180).1 0
    ⟨0, 180, AttemptResult.status 404 []⟩ ⟨1, 180, AttemptResult.status 404 []⟩
    404 [] rfl rfl (by omega) rfl, ?_⟩
  have h := (C3_http_status oracle200 "u" "p" 180).2 0
    ⟨0, 180, AttemptResult.status 200 [[7, 8], [9]]⟩ [[7, 8], [9]] rfl rfl
  exact ⟨h.1, by rw [h.2]; rfl⟩

/-- Counterexample to C7: two exhausted fetches with different locators and
destination paths both return `None`, so the returned value carries neither
the item's locator nor its destination path. -/
theorem C7_counterexample :
    ("p1" : String) ≠ "p2" ∧
    (fetch_url oracleAllExc "u1" "p1" 180).result = none ∧
    (fetch_url oracleAllExc "u2" "p2" 180).result =
      (fetch_url oracleAllExc "u1" "p1" 180).result :=
  ⟨by decide, rfl, rfl⟩

/-- C7 as amended: when all 5 attempts end without an HTTP 200, `fetch_url`
returns `None`, a value carrying no information about the item. -/
theorem C7_exhaustion_returns_none (oracle : Nat → AttemptResult)
    (uri path : String) (t0 : ℚ)
    (h : ∀ k, k < 5 → ok200 (oracle k) = false) :
    (fetch_url oracle uri path t0).result = none ∧
    (fetch_url oracle uri path t0).attempts.length = 5 := by
  have := fetchGo_exhaust oracle path 5 0 t0 (by intro k hk; simpa using h k hk)
  exact ⟨this.1, this.2.2⟩

/-- Witness for the amended C7 at the always-raising oracle. -/
theorem C7_exhaustion_returns_none_witness :
    (fetch_url oracleAllExc "u" "p" 180).result = none ∧
    (fetch_url oracleAllExc "u" "p" 180).attempts.length = 5 :=
  C7_exhaustion_returns_none oracleAllExc "u" "p" 180 (by decide)

/-- Counterexample to C9: `random.randint(1, 101)` is inclusive at both ends,
so the draw 101 is possible and yields a jitter of 101/20 = 5.05 s, which is
not below 5 s. -/
theorem C9_counterexample :
    1 ≤ 101 ∧ 101 ≤ 101 ∧ ¬ randSleep 101 < 5 := by
  refine ⟨by omega, by omega, ?_⟩
  rw [randSleep]
  norm_num

/-- C9 as amended: the jitter slept before the first attempt lies in the
closed interval [0.05 s, 5.05 s]. -/
theorem C9_jitter_range (r : Nat) (h1 : 1 ≤ r) (h2 : r ≤ 101) :
    (1 / 20 : ℚ) ≤ randSleep r ∧ randSleep r ≤ 101 / 20 := by
  unfold randSleep
  constructor
  · have h : (1 : ℚ) ≤ (r : ℚ) := by exact_mod_cast h1
    linarith
  · have h : (r : ℚ) ≤ 101 := by exact_mod_cast h2
    linarith

/-- Witness for the amended C9 at the maximal draw. -/
theorem C9_jitter_range_witness :
    (1 / 20 : ℚ) ≤ randSleep 101 ∧ randSleep 101 ≤ 101 / 20 :=
  C9_jitter_range 101 (by omega) (by omega)

/-! ## Lemmas about `multiobject_download` -/

/-- C4: a failed item (its fetch returned `None`) is excluded from the list
returned by `multiobject_download` and from the lines the batch appends to
the ledger, while every successful item's path is still returned and
appended. The hypotheses record that `fetch_url` returns either `None` or
the entry's own destination path, and that destination paths are pairwise
distinct (which `__main__`'s counter guarantees). -/
theorem C4_failed_item_isolated (fetch : String × String → Option String)
    (urlList : List String) (downdir : String) (filenames : List String)
    (hfetch : ∀ e ∈ thisArrayOf urlList downdir filenames,
      fetch e = none ∨ fetch e = some e.2)
    (hnodup : ((thisArrayOf urlList downdir filenames).map Prod.snd).Nodup)
    (L : List String) :
    ∀ e ∈ thisArrayOf urlList downdir filenames,
      (fetch e = none →
        e.2 ∉ multiobject_download fetch urlList downdir filenames ∧
        e.2 ∉ (ledgerAppend L (multiobject_download fetch urlList downdir filenames)).drop
          L.length) ∧
      (fetch e = some e.2 →
        e.2 ∈ multiobject_download fetch urlList downdir filenames ∧
        e.2 ∈ (ledgerAppend L (multiobject_download fetch urlList downdir filenames)).drop
          L.length) := by
  intro e he
  have hdrop : (ledgerAppend L (multiobject_download fetch urlList downdir filenames)).drop
      L.length = multiobject_download fetch urlList downdir filenames :=
    List.drop_left L _
  constructor
  · intro hnone
    have hmem : e.2 ∉ multiobject_download fetch urlList downdir filenames := by
      intro hin
      rw [multiobject_download] at hin
      simp only [List.mem_map, List.mem_filter, decide_eq_true_eq] at hin
      obtain ⟨o, ⟨hoA, e2, he2, hfe2⟩, hoe⟩ := hin
      rw [hoe] at hfe2
      rcases hfetch e2 he2 with h0 | h0
      · rw [h0] at hfe2
        exact Option.noConfusion hfe2
      · rw [h0] at hfe2
        have hsnd : e2.2 = e.2 := by injection hfe2
        have heq : e2 = e := List.inj_on_of_nodup_map hnodup he2 he hsnd
        rw [heq, hnone] at h0
        exact Option.noConfusion h0
    exact ⟨hmem, by rw [hdrop]; exact hmem⟩
  · intro hsome
    have hmem : e.2 ∈ multiobject_download fetch urlList downdir filenames := by
      rw [multiobject_download]
      simp only [List.mem_map, List.mem_filter, decide_eq_true_eq]
      exact ⟨e, ⟨he, e, he, hsome⟩, rfl⟩
    exact ⟨hmem, by rw [hdrop]; exact hmem⟩

/-- Witness for C4: with two entries of which the first fails, the first's
destination path is absent from the result and the second's is present. -/
theorem C4_failed_item_isolated_witness :
    "d/1.jpeg" ∉ multiobject_download fetchFailFirst ["u1", "u2"] "d" ["1.jpeg", "2.jpeg"] ∧
    "d/2.jpeg" ∈ multiobject_download fetchFailFirst ["u1", "u2"] "d" ["1.jpeg", "2.jpeg"] := by
  have h := C4_failed_item_isolated fetchFailFirst ["u1", "u2"] "d" ["1.jpeg", "2.jpeg"]
    (by decide) (by decide) []
  exact ⟨((h ("u1", "d/1.jpeg") (by decide)).1 (by decide)).1,
    ((h ("u2", "d/2.jpeg") (by decide)).2 (by decide)).1⟩

/-- Counterexample to C6: for a single-URL batch whose fetch fails, the last
reported percentage is 100 even though 0 of the 1 items of the run were
successfully downloaded, and 100 is not 0/1 times 100. -/
theorem C6_counterexample :
    multiobject_percents fetchFail ["u"] "d" ["1.jpeg"] = [100] ∧
    multiobject_download fetchFail ["u"] "d" ["1.jpeg"] = [] ∧
    ¬ (100 : ℚ) = ((0 : ℚ) / 1) * 100 := by
  refine ⟨?_, rfl, by norm_num⟩
  norm_num [multiobject_percents, thisArrayOf, ospath_join, List.range_succ]

/-- C6 as amended: the percentage reported after the `k`-th collected result
of a batch is (k+1) divided by the number of URLs in that batch, times 100 —
failures counted like successes — so at the end of every nonempty batch the
reported percentage is 100 regardless of how many downloads succeeded. -/
theorem C6_percent_counts_batch_results (fetch : String × String → Option String)
    (urlList : List String) (downdir : String) (filenames : List String)
    (hlen : urlList.length ≤ filenames.length) :
    (∀ k, k < urlList.length →
      (multiobject_percents fetch urlList downdir filenames).get? k =
        some (((k : ℚ) + 1) / (urlList.length : ℚ) * 100)) ∧
    (urlList ≠ [] →
      (multiobject_percents fetch urlList downdir filenames).getLast? = some 100) := by
  have hAlen : (thisArrayOf urlList downdir filenames).length = urlList.length := by
    rw [thisArrayOf, List.length_zip, List.length_map]
    omega
  have hRlen : ((thisArrayOf urlList downdir filenames).map fetch).length = urlList.length := by
    rw [List.length_map]
    exact hAlen
  have hpart1 : ∀ k, k < urlList.length →
      (multiobject_percents fetch urlList downdir filenames).get? k =
        some (((k : ℚ) + 1) / (urlList.length : ℚ) * 100) := by
    intro k hk
    rw [multiobject_percents, List.get?_map, List.get?_range (by rw [hRlen]; exact hk)]
    rfl
  refine ⟨hpart1, fun hne => ?_⟩
  have h0 : urlList.length ≠ 0 := fun h => hne (List.length_eq_zero.mp h)
  have hplen : (multiobject_percents fetch urlList downdir filenames).length =
      urlList.length := by
    rw [multiobject_percents]
    simp only [List.length_map, List.length_range]
    exact hAlen
  rw [List.getLast?_eq_get?, hplen, hpart1 (urlList.length - 1) (by omega)]
  have hL : (urlList.length : ℚ) ≠ 0 := Nat.cast_ne_zero.mpr h0
  have hcast : ((urlList.length - 1 : Nat) : ℚ) + 1 = (urlList.length : ℚ) := by
    rw [Nat.cast_sub (by omega)]
    ring
  rw [hcast, div_self hL, one_mul]

/-- Witness for the amended C6: a two-URL batch with one failure still
reports 100 percent at the end. -/
theorem C6_percent_counts_batch_results_witness :
    (multiobject_percents fetchFailFirst ["u1", "u2"] "d" ["1.jpeg", "2.jpeg"]).getLast? =
      some 100 :=
  (C6_percent_counts_batch_results fetchFailFirst ["u1", "u2"] "d" ["1.jpeg", "2.jpeg"]
    (by decide)).2 (by decide)

/-! ## Injectivity of decimal printing (`Nat.repr`) -/

theorem digitVal_digitChar : ∀ m, m < 10 → digitVal (Nat.digitChar m) = m := by
  decide

theorem toDigitsCore_eq_toDigitsList :
    ∀ (fuel n : Nat) (ds : List Char), 0 < fuel → n < 10 ^ fuel →
      Nat.toDigitsCore 10 fuel n ds = toDigitsList n ++ ds := by
  intro fuel
  induction fuel with
  | zero => intro n ds h; exact absurd h (lt_irrefl 0)
  | succ f ih =>
    intro n ds _ hlt
    rw [Nat.toDigitsCore]
    by_cases h0 : n / 10 = 0
    · have hn10 : n < 10 := by omega
      rw [if_pos h0, toDigitsList.eq_def, if_pos hn10, Nat.mod_eq_of_lt hn10]
      rfl
    · rw [if_neg h0]
      have hfpos : 0 < f := by
        rcases f with _ | f2
        · rw [pow_one] at hlt
          omega
        · omega
      have hdiv : n / 10 < 10 ^ f := by
        rw [Nat.div_lt_iff_lt_mul (by norm_num)]
        calc n < 10 ^ (f + 1) := hlt
        _ = 10 ^ f * 10 := by rw [pow_succ]
      rw [ih (n / 10) (Nat.digitChar (n % 10) :: ds) hfpos hdiv,
        toDigitsList.eq_def (n := n), if_neg (by omega)]
      simp [List.append_assoc]

theorem toDigitsList_decode : ∀ (n acc : Nat),
    (toDigitsList n).foldl (fun a c => 10 * a + digitVal c) acc =
      acc * 10 ^ (toDigitsList n).length + n := by
  intro n
  induction n using Nat.strong_induction_on with
  | _ n ih =>
    intro acc
    by_cases h : n < 10
    · rw [toDigitsList.eq_def, if_pos h]
      simp only [List.foldl_cons, List.foldl_nil, List.length_cons, List.length_nil,
        pow_one, zero_add]
      rw [digitVal_digitChar n h]
      ring
    · rw [toDigitsList.eq_def, if_neg h, List.foldl_append,
        ih (n / 10) (Nat.div_lt_self (by omega) (by omega)) acc]
      simp only [List.foldl_cons, List.foldl_nil, List.length_append, List.length_cons,
        List.length_nil, zero_add]
      rw [digitVal_digitChar _ (Nat.mod_lt _ (by norm_num)), pow_succ]
      have hmod : 10 * (n / 10) + n % 10 = n := by omega
      calc 10 * (acc * 10 ^ (toDigitsList (n / 10)).length + n / 10) + n % 10
          = acc * (10 ^ (toDigitsList (n / 10)).length * 10) +
            (10 * (n / 10) + n % 10) := by ring
      _ = acc * (10 ^ (toDigitsList (n / 10)).length * 10) + n := by rw [hmod]

theorem toDigitsList_inj : Function.Injective toDigitsList := by
  intro a b h
  have ha := toDigitsList_decode a 0
  have hb := toDigitsList_decode b 0
  rw [h] at ha
  simp only [zero_mul, zero_add] at ha hb
  exact ha.symm.trans hb

theorem repr_eq_toDigitsList (n : Nat) : Nat.repr n = (toDigitsList n).asString := by
  rw [Nat.repr, Nat.toDigits,
    toDigitsCore_eq_toDigitsList (n + 1) n [] (by omega) ?_, List.append_nil]
  have h1 : n < 2 ^ (n + 1) :=
    lt_of_lt_of_le (Nat.lt_two_pow n) (Nat.pow_le_pow_right (by norm_num) (by omega))
  exact lt_of_lt_of_le h1 (Nat.pow_le_pow_left (by norm_num) _)

theorem repr_injective : Function.Injective Nat.repr := by
  intro a b h
  rw [repr_eq_toDigitsList, repr_eq_toDigitsList] at h
  have h2 : toDigitsList a = toDigitsList b := congrArg String.data h
  exact toDigitsList_inj h2

theorem filenameOf_injective : Function.Injective filenameOf := by
  intro a b h
  have hd := congrArg String.data h
  simp only [filenameOf, String.data_append] at hd
  exact repr_injective (String.ext (List.append_cancel_right hd))

theorem ospath_join_injective (d : String) : Function.Injective (ospath_join d) := by
  intro a b h
  have hd := congrArg String.data h
  simp only [ospath_join, String.data_append, List.append_assoc] at hd
  exact String.ext (List.append_cancel_left (List.append_cancel_left hd))

/-! ## Lemmas about the orchestration loop of `__main__` -/

theorem processRow_skip (retrieved_ids : List String) (makeUrl : Row → Option String)
    (s : BatchAcc) (row : Row) (h : row.oid ∈ retrieved_ids) :
    processRow retrieved_ids makeUrl s row = s := by
  rw [processRow, if_pos h]

theorem processRow_allUrls (retrieved_ids : List String) (makeUrl : Row → Option String)
    (s : BatchAcc) (row : Row) :
    (processRow retrieved_ids makeUrl s row).allUrls = s.allUrls ∨
    (row.oid ∉ retrieved_ids ∧ ∃ u, makeUrl row = some u ∧
      (processRow retrieved_ids makeUrl s row).allUrls = s.allUrls ++ [u]) := by
  by_cases h : row.oid ∈ retrieved_ids
  · left
    simp [processRow, h]
  · cases hm : makeUrl row with
    | none => left; simp [processRow, h, hm]
    | some u => right; exact ⟨h, u, rfl, by simp [processRow, h, hm]⟩

theorem foldl_processRow_allUrls (retrieved_ids : List String)
    (makeUrl : Row → Option String) :
    ∀ (batch : List Row) (s : BatchAcc) (u : String),
      u ∈ (batch.foldl (processRow retrieved_ids makeUrl) s).allUrls →
      u ∈ s.allUrls ∨ ∃ row ∈ batch, row.oid ∉ retrieved_ids ∧ makeUrl row = some u := by
  intro batch
  induction batch with
  | nil => intro s u h; exact Or.inl h
  | cons row bs ih =>
    intro s u h
    simp only [List.foldl_cons] at h
    rcases ih _ u h with h1 | h1
    · rcases processRow_allUrls retrieved_ids makeUrl s row with h2 | ⟨hk, v, hv, h2⟩
      · rw [h2] at h1
        exact Or.inl h1
      · rw [h2] at h1
        rcases List.mem_append.mp h1 with h3 | h3
        · exact Or.inl h3
        · refine Or.inr ⟨row, List.mem_cons_self _ _, hk, ?_⟩
          rw [List.mem_singleton.mp h3]
          exact hv
    · rcases h1 with ⟨row2, hrow2, hk, hu⟩
      exact Or.inr ⟨row2, List.mem_cons_of_mem _ hrow2, hk, hu⟩

theorem processBatch_allUrls (retrieved_ids : List String) (makeUrl : Row → Option String)
    (counter : Nat) (nf : List String) (batch : List Row) (u : String)
    (h : u ∈ (processBatch retrieved_ids makeUrl counter nf batch).allUrls) :
    ∃ row ∈ batch, row.oid ∉ retrieved_ids ∧ makeUrl row = some u := by
  rcases foldl_processRow_allUrls retrieved_ids makeUrl batch ⟨counter, [], [], nf⟩ u h with
    h1 | h1
  · simp at h1
  · exact h1

theorem foldl_runBatch_fetched (retrieved_ids : List String)
    (makeUrl : Row → Option String) (fetch : String × String → Option String)
    (downdir : String) (rows : List Row) :
    ∀ (batches : List (List Row)) (s : RunState),
      (∀ b ∈ batches, ∀ row ∈ b, row ∈ rows) →
      (∀ u p, (u, p) ∈ s.fetched →
        ∃ row ∈ rows, row.oid ∉ retrieved_ids ∧ makeUrl row = some u) →
      ∀ u p,
        (u, p) ∈ (batches.foldl (runBatch retrieved_ids makeUrl fetch downdir) s).fetched →
        ∃ row ∈ rows, row.oid ∉ retrieved_ids ∧ makeUrl row = some u := by
  intro batches
  induction batches with
  | nil => intro s _ hs u p h; exact hs u p h
  | cons b bs ih =>
    intro s hsub hs u p h
    simp only [List.foldl_cons] at h
    refine ih _ (fun b2 hb2 => hsub b2 (List.mem_cons_of_mem _ hb2)) ?_ u p h
    intro u2 p2 hmem
    simp only [runBatch] at hmem
    rcases List.mem_append.mp hmem with h1 | h1
    · exact hs u2 p2 h1
    · rw [thisArrayOf] at h1
      have hu2 := (List.of_mem_zip h1).1
      obtain ⟨row, hrow, hk, hu⟩ :=
        processBatch_allUrls retrieved_ids makeUrl s.counter s.notfound b u2 hu2
      exact ⟨row, hsub b (List.mem_cons_self _ _) row hrow, hk, hu⟩

/-- C1: a record whose `str(oid)` lies in the id set recovered from the
ledger is skipped outright — processing it changes nothing — and every
`(url, path)` pair ever handed to the downloader during a run originates from
a record whose id is not in the recovered set, so no ledgered id is
re-downloaded. -/
theorem C1_ledgered_ids_skipped (ledgerPaths : List String)
    (makeUrl : Row → Option String) (fetch : String × String → Option String)
    (downdir : String) (rows : List Row) :
    (∀ (s : BatchAcc) (row : Row), row.oid ∈ retrievedIdsOf ledgerPaths →
      processRow (retrievedIdsOf ledgerPaths) makeUrl s row = s) ∧
    (∀ u p,
      (u, p) ∈ (runAll (retrievedIdsOf ledgerPaths) makeUrl fetch downdir rows).fetched →
      ∃ row ∈ rows, row.oid ∉ retrievedIdsOf ledgerPaths ∧ makeUrl row = some u) := by
  constructor
  · intro s row h
    exact processRow_skip _ _ s row h
  · intro u p h
    rw [runAll] at h
    refine foldl_runBatch_fetched (retrievedIdsOf ledgerPaths) makeUrl fetch downdir rows
      (chunks 10 rows) ⟨1, [], [], [], []⟩ ?_ ?_ u p h
    · intro b hb row hrow
      have hmem : row ∈ (chunks 10 rows).flatten := List.mem_flatten.mpr ⟨b, hb, hrow⟩
      rwa [chunks_flatten 10 (by omega)] at hmem
    · intro u2 p2 h2
      simp at h2

/-- Witness for C1: with the ledger containing `d/42.jpeg`, the recovered id
set is `{"42"}` and a record with oid `42` leaves the batch state untouched. -/
theorem C1_ledgered_ids_skipped_witness :
    processRow (retrievedIdsOf ["d/42.jpeg"]) (fun _ => none) ⟨1, [], [], []⟩
      ⟨"1", "2", "42"⟩ = ⟨1, [], [], []⟩ :=
  (C1_ledgered_ids_skipped ["d/42.jpeg"] (fun _ => none) fetchFail "d" []).1
    ⟨1, [], [], []⟩ ⟨"1", "2", "42"⟩ (by decide)

/-- C5: a record that is not skipped and whose locator construction fails
appends exactly one line to the failure log and adds nothing to the URL
queue, hence nothing to the `(locator, destination)` pairs handed to the
downloader. -/
theorem C5_locator_failure (retrieved_ids : List String)
    (makeUrl : Row → Option String) (s : BatchAcc) (row : Row)
    (hns : row.oid ∉ retrieved_ids) (hfail : makeUrl row = none) :
    (processRow retrieved_ids makeUrl s row).notfound =
      s.notfound ++ [notfoundLine row] ∧
    (processRow retrieved_ids makeUrl s row).allUrls = s.allUrls ∧
    (∀ downdir fns,
      thisArrayOf (processRow retrieved_ids makeUrl s row).allUrls downdir fns =
        thisArrayOf s.allUrls downdir fns) := by
  refine ⟨?_, ?_, ?_⟩ <;> simp [processRow, hns, hfail, thisArrayOf]

/-- Witness for C5 at a concrete failing record. -/
theorem C5_locator_failure_witness :
    (processRow [] (fun _ => none) ⟨1, [], [], []⟩ ⟨"9", "8", "77"⟩).notfound =
      [] ++ [notfoundLine ⟨"9", "8", "77"⟩] ∧
    (processRow [] (fun _ => none) ⟨1, [], [], []⟩ ⟨"9", "8", "77"⟩).allUrls = [] := by
  have h := C5_locator_failure [] (fun _ => none) ⟨1, [], [], []⟩ ⟨"9", "8", "77"⟩
    (by decide) rfl
  exact ⟨h.1, h.2.1⟩

theorem foldl_processRow_objids (retrieved_ids : List String)
    (makeUrl : Row → Option String) :
    ∀ (batch : List Row) (s : BatchAcc),
      (batch.foldl (processRow retrieved_ids makeUrl) s).objids =
        s.objids ++
          (List.range' s.counter (batch.countP (keptRow retrieved_ids))).map filenameOf ∧
      (batch.foldl (processRow retrieved_ids makeUrl) s).counter =
        s.counter + batch.countP (keptRow retrieved_ids) := by
  intro batch
  induction batch with
  | nil => intro s; simp
  | cons row bs ih =>
    intro s
    simp only [List.foldl_cons, List.countP_cons]
    by_cases h : row.oid ∈ retrieved_ids
    · have hkept : keptRow retrieved_ids row = false := by simp [keptRow, h]
      rw [processRow_skip _ _ _ _ h, hkept]
      simpa using ih s
    · have hkept : keptRow retrieved_ids row = true := by simp [keptRow, h]
      rw [hkept]
      have hobj : (processRow retrieved_ids makeUrl s row).objids =
          s.objids ++ [filenameOf s.counter] := by
        cases hm : makeUrl row <;> simp [processRow, h, hm]
      have hcnt : (processRow retrieved_ids makeUrl s row).counter = s.counter + 1 := by
        cases hm : makeUrl row <;> simp [processRow, h, hm]
      obtain ⟨ih1, ih2⟩ := ih (processRow retrieved_ids makeUrl s row)
      rw [ih1, ih2, hobj, hcnt]
      constructor
      · simp only [if_true]
        rw [List.range'_succ]
        simp [List.append_assoc]
      · simp only [if_true]
        omega

theorem processBatch_objids_counter (retrieved_ids : List String)
    (makeUrl : Row → Option String) (counter : Nat) (nf : List String)
    (batch : List Row) :
    (processBatch retrieved_ids makeUrl counter nf batch).objids =
      (List.range' counter (batch.countP (keptRow retrieved_ids))).map filenameOf ∧
    (processBatch retrieved_ids makeUrl counter nf batch).counter =
      counter + batch.countP (keptRow retrieved_ids) := by
  have h := foldl_processRow_objids retrieved_ids makeUrl batch ⟨counter, [], [], nf⟩
  simpa [processBatch] using h

theorem foldl_runBatch_assigned (retrieved_ids : List String)
    (makeUrl : Row → Option String) (fetch : String × String → Option String)
    (downdir : String) :
    ∀ (batches : List (List Row)) (s : RunState),
      (batches.foldl (runBatch retrieved_ids makeUrl fetch downdir) s).assigned =
        s.assigned ++
          (List.range' s.counter
            (batches.flatten.countP (keptRow retrieved_ids))).map filenameOf ∧
      (batches.foldl (runBatch retrieved_ids makeUrl fetch downdir) s).counter =
        s.counter + batches.flatten.countP (keptRow retrieved_ids) := by
  intro batches
  induction batches with
  | nil => intro s; simp
  | cons b bs ih =>
    intro s
    simp only [List.foldl_cons, List.flatten_cons, List.countP_append]
    obtain ⟨iha, ihc⟩ := ih (runBatch retrieved_ids makeUrl fetch downdir s b)
    have hpb := processBatch_objids_counter retrieved_ids makeUrl s.counter s.notfound b
    have hassigned : (runBatch retrieved_ids makeUrl fetch downdir s b).assigned =
        s.assigned ++
          (List.range' s.counter (b.countP (keptRow retrieved_ids))).map filenameOf := by
      simp only [runBatch]
      rw [hpb.1]
    have hcounter : (runBatch retrieved_ids makeUrl fetch downdir s b).counter =
        s.counter + b.countP (keptRow retrieved_ids) := by
      simp only [runBatch]
      exact hpb.2
    rw [iha, ihc, hassigned, hcounter]
    constructor
    · rw [List.append_assoc, ← List.map_append]
      have hr := List.range'_append s.counter (b.countP (keptRow retrieved_ids))
        (bs.flatten.countP (keptRow retrieved_ids)) 1
      simp only [one_mul] at hr
      rw [hr, Nat.add_comm (bs.flatten.countP (keptRow retrieved_ids))]
    · omega

theorem zip_map_snd {α β : Type} :
    ∀ (l1 : List α) (l2 : List β), (l1.zip l2).map Prod.snd = l2.take l1.length := by
  intro l1
  induction l1 with
  | nil => intro l2; simp
  | cons x xs ih =>
    intro l2
    cases l2 with
    | nil => simp
    | cons y ys => simp [ih ys]

theorem thisArrayOf_snd_sublist (urls : List String) (d : String) (fns : List String) :
    ((thisArrayOf urls d fns).map Prod.snd).Sublist (fns.map (ospath_join d)) := by
  rw [thisArrayOf, zip_map_snd]
  exact List.take_sublist _ _

theorem foldl_runBatch_paths_sublist (retrieved_ids : List String)
    (makeUrl : Row → Option String) (fetch : String × String → Option String)
    (downdir : String) :
    ∀ (batches : List (List Row)) (s : RunState),
      (s.fetched.map Prod.snd).Sublist (s.assigned.map (ospath_join downdir)) →
      (((batches.foldl (runBatch retrieved_ids makeUrl fetch downdir) s).fetched.map
          Prod.snd).Sublist
        ((batches.foldl (runBatch retrieved_ids makeUrl fetch downdir) s).assigned.map
          (ospath_join downdir))) := by
  intro batches
  induction batches with
  | nil => intro s h; exact h
  | cons b bs ih =>
    intro s h
    simp only [List.foldl_cons]
    refine ih _ ?_
    simp only [runBatch, List.map_append]
    exact h.append (thisArrayOf_snd_sublist _ _ _)

/-- C10: over a whole run the assigned destination filenames are exactly
`1.jpeg`, `2.jpeg`, … in order — the counter starts at 1 and increases by one
per enqueued record, across batch boundaries, without reset — hence they are
pairwise distinct, and so are the destination paths handed to the downloader,
so no download can overwrite another's file within the run. -/
theorem C10_filenames_distinct (retrieved_ids : List String)
    (makeUrl : Row → Option String) (fetch : String × String → Option String)
    (downdir : String) (rows : List Row) :
    (runAll retrieved_ids makeUrl fetch downdir rows).assigned =
      (List.range' 1 (rows.countP (keptRow retrieved_ids))).map filenameOf ∧
    (runAll retrieved_ids makeUrl fetch downdir rows).assigned.Nodup ∧
    ((runAll retrieved_ids makeUrl fetch downdir rows).fetched.map Prod.snd).Nodup := by
  have h := foldl_runBatch_assigned retrieved_ids makeUrl fetch downdir
    (chunks 10 rows) ⟨1, [], [], [], []⟩
  rw [chunks_flatten 10 (by omega)] at h
  have hassigned : (runAll retrieved_ids makeUrl fetch downdir rows).assigned =
      (List.range' 1 (rows.countP (keptRow retrieved_ids))).map filenameOf := by
    rw [runAll]
    simpa using h.1
  refine ⟨hassigned, ?_, ?_⟩
  · rw [hassigned]
    exact List.Nodup.map filenameOf_injective (List.nodup_range' 1 _)
  · have hsub := foldl_runBatch_paths_sublist retrieved_ids makeUrl fetch downdir
      (chunks 10 rows) ⟨1, [], [], [], []⟩ (by simp)
    rw [← runAll] at hsub
    refine hsub.nodup ?_
    rw [hassigned, List.map_map]
    exact List.Nodup.map
      ((ospath_join_injective downdir).comp filenameOf_injective)
      (List.nodup_range' 1 _)

end SDSS
